import Mathlib

set_option autoImplicit false

namespace ElToque

/-! # Shallow embedding of the ulauncher-elToque rate engine (src/main.py)

Dates are modelled at day resolution as integers (the source's ISO date strings
order lexicographically exactly as their day numbers do).  Rates are modelled as
rationals (the source stores SQLite REALs; no claim performs arithmetic on
them, only storage and comparison).  The SQLite tables are modelled as
association lists; the `rates` table has primary key (date, currency), so a
reachable store never holds two rows with the same key and the replace-in-place
model below agrees with SQLite's logical row set.  I/O failures of the store
and of the remote API are injected through explicit parameters, since the
source reaches them through exceptions. -/

abbrev Date := Int
abbrev Currency := String
abbrev Rate := ℚ

/-- One persisted row of the `rates` table: (date, currency, rate). -/
abbrev RateRow := Date × Currency × Rate

/-- A currency → rate mapping (a JSON `tasas` object or a query result). -/
abbrev RateMap := List (Currency × Rate)

/-- First-match lookup in a generic association list (Python dict lookup). -/
def findAssoc {α β : Type} [DecidableEq α] : List (α × β) → α → Option β
  | [], _ => none
  | p :: rest, k => if p.1 = k then some p.2 else findAssoc rest k

/-- Keyed replace-or-append in a generic association list
    (SQLite `INSERT OR REPLACE` on a single-column primary key). -/
def upsertAssoc {α β : Type} [DecidableEq α] : List (α × β) → α → β → List (α × β)
  | [], k, v => [(k, v)]
  | p :: rest, k, v => if p.1 = k then (k, v) :: rest else p :: upsertAssoc rest k v

/-- The durable SQLite store: the `rates` table and the `metadata` table. -/
structure Store where
  rates : List RateRow
  metadata : List (String × String)
  deriving Repr, DecidableEq

def Store.empty : Store := ⟨[], []⟩

/-- `INSERT OR REPLACE INTO rates`: replace the row with primary key
    (date, currency) if present, else append the new row. -/
def insertOrReplaceRate : List RateRow → Date → Currency → Rate → List RateRow
  | [], d, c, r => [(d, c, r)]
  | row :: rest, d, c, r =>
      if row.1 = d ∧ row.2.1 = c then (d, c, r) :: rest
      else row :: insertOrReplaceRate rest d c r

/-- Point lookup in the `rates` table by its primary key (date, currency). -/
def lookupRate : List RateRow → Date → Currency → Option Rate
  | [], _, _ => none
  | row :: rest, d, c =>
      if row.1 = d ∧ row.2.1 = c then some row.2.2 else lookupRate rest d c

/-- All rows of the `rates` table for one date, in table order, as a
    currency → rate mapping (`SELECT currency, rate FROM rates WHERE date = ?`). -/
def Store.rowsFor (db : Store) (d : Date) : RateMap :=
  db.rates.filterMap (fun row => if row.1 = d then some (row.2.1, row.2.2) else none)

/-- `get_rates_from_db`: a read I/O failure (modelled by `fail`) is caught
    inside the function and degrades to `none`; an empty result set is also
    returned as `none` (the caller tests the dict's truthiness). -/
def get_rates_from_db (fail : Bool) (db : Store) (date : Date) : Option RateMap :=
  if fail then none
  else
    let results := db.rowsFor date
    if results = [] then none else some results

/-- Result of a store write: the new store, and whether an exception escaped
    to the caller. -/
structure WriteResult where
  db : Store
  raised : Bool
  deriving Repr, DecidableEq

/-- The write loop of `store_rates_in_db`: one `INSERT OR REPLACE` per
    (currency, rate) item of the map, in iteration order. -/
def writeRows (date : Date) (rates : RateMap) (rows : List RateRow) : List RateRow :=
  rates.foldl (fun acc cr => insertOrReplaceRate acc date cr.1 cr.2) rows

/-- `store_rates_in_db`: a no-op on an empty map; otherwise `INSERT OR REPLACE`
    each (currency, rate) row for `date` and refresh the metadata row
    `last_update` to `nowIso`, in one transaction.  A write I/O failure
    (modelled by `fail`) aborts the uncommitted transaction, is caught inside
    the function and only printed: the store is unchanged and no error reaches
    the caller, so `raised` is `false` on every path. -/
def store_rates_in_db (fail : Bool) (db : Store) (date : Date) (rates : RateMap)
    (nowIso : String) : WriteResult :=
  if rates = [] then ⟨db, false⟩
  else if fail then ⟨db, false⟩
  else ⟨⟨writeRows date rates db.rates,
         upsertAssoc db.metadata "last_update" nowIso⟩, false⟩

/-- Error kinds of the remote ElToque API: HTTP 401, HTTP 429, a network
    failure, or a body `response.json()` cannot decode. -/
inductive ApiErr where
  | unauthorized
  | rateLimited
  | transientFail
  | malformed
  deriving Repr, DecidableEq

/-- JSON body of a successful API response: the `tasas` mapping, plus whether
    the top-level object has any key at all (its Python truthiness, which the
    memory-cache guard tests after the body is cached). -/
structure ApiData where
  hasKeys : Bool
  tasas : RateMap
  deriving Repr, DecidableEq

/-- The remote source, as an oracle from the requested day to its response. -/
abbrev ApiSource := Date → Except ApiErr ApiData

/-- The module-level memory cache globals of main.py. -/
structure MemCache where
  lastApiCallTime : Option Nat
  cachedData : Option ApiData
  cachedDate : Option Date
  deriving Repr, DecidableEq

def MemCache.empty : MemCache := ⟨none, none, none⟩

def CACHE_DURATION : Nat := 300

/-- The memory-cache guard of `fetch_exchange_rates`:
    `cached_data and last_api_call_time and cached_date == target_date and
    (now - last_api_call_time) < CACHE_DURATION`, with Python truthiness (an
    empty cached dict or a zero timestamp fails the test).  Returns the cached
    body on a hit. -/
def memLookup (mem : MemCache) (now : Nat) (target : Date) : Option ApiData :=
  match mem.cachedData, mem.lastApiCallTime, mem.cachedDate with
  | some d, some t, some cd =>
      if d.hasKeys = true ∧ t ≠ 0 ∧ cd = target ∧ (now : Int) - t < CACHE_DURATION
      then some d else none
  | _, _, _ => none

/-- The mutable state `fetch_exchange_rates` touches: the three cache globals
    and the durable store. -/
structure FetchState where
  mem : MemCache
  db : Store
  deriving Repr, DecidableEq

instance {ε α : Type} [DecidableEq ε] [DecidableEq α] : DecidableEq (Except ε α)
  | .error e, .error f =>
      if h : e = f then isTrue (by rw [h])
      else isFalse (fun hh => h (Except.error.inj hh))
  | .ok a, .ok b =>
      if h : a = b then isTrue (by rw [h])
      else isFalse (fun hh => h (Except.ok.inj hh))
  | .error _, .ok _ => isFalse (fun hh => Except.noConfusion hh)
  | .ok _, .error _ => isFalse (fun hh => Except.noConfusion hh)

/-- Outcome of one `fetch_exchange_rates` call: the returned body or the
    propagated error, the state afterwards, and how many API round trips were
    made (0 or 1). -/
structure FetchResult where
  result : Except ApiErr ApiData
  st : FetchState
  apiCalls : Nat
  deriving Repr, DecidableEq

/-- The remote branch of `fetch_exchange_rates` (lines 1073-1093): one API
    round trip; on success the three cache globals are refreshed and the
    body's `tasas` map is written to the store; on failure (raise_for_status
    or undecodable body) the exception propagates before any global is
    assigned. -/
def fetchFromApi (api : ApiSource) (dbFailW : Bool) (now : Nat) (nowIso : String)
    (st : FetchState) (target : Date) : FetchResult :=
  match api target with
  | .error e => ⟨.error e, st, 1⟩
  | .ok data =>
      ⟨.ok data,
       ⟨⟨some now, some data, some target⟩,
        (store_rates_in_db dbFailW st.db target data.tasas nowIso).db⟩, 1⟩

/-- `fetch_exchange_rates` (lines 1053-1093): memory cache, then durable
    store, then remote API; `forceApi` skips both cache layers. -/
def fetch_exchange_rates (api : ApiSource) (dbFailR dbFailW : Bool) (now : Nat)
    (nowIso : String) (st : FetchState) (target : Date) (forceApi : Bool) : FetchResult :=
  if forceApi then fetchFromApi api dbFailW now nowIso st target
  else
    match memLookup st.mem now target with
    | some d => ⟨.ok d, st, 0⟩
    | none =>
        match get_rates_from_db dbFailR st.db target with
        | some m =>
            ⟨.ok ⟨true, m⟩,
             ⟨⟨some now, some ⟨true, m⟩, some target⟩, st.db⟩, 0⟩
        | none => fetchFromApi api dbFailW now nowIso st target

/-- A volatile trend-cache entry: the two index-aligned series plus its
    creation time. -/
structure TrendEntry where
  dates : List Date
  rates : List Rate
  timestamp : Nat
  deriving Repr, DecidableEq

/-- Trend-cache keys: the source keys entries by the string
    `f"{currency}_{period_days}"`; the pair is its exact content. -/
abbrev TrendKey := Currency × Nat

abbrev TrendCache := List (TrendKey × TrendEntry)

/-- The trend-cache guard of `get_trend_data` (lines 1150-1152): a present
    and unexpired entry is returned as-is; a present but expired entry is
    recomputed and overwritten. -/
def trendCacheHit (tc : TrendCache) (key : TrendKey) (now : Nat) : Option TrendEntry :=
  match findAssoc tc key with
  | some e => if (now : Int) - e.timestamp < CACHE_DURATION then some e else none
  | none => none

/-- The enumerated date range `today - periodDays … today`, ascending
    (lines 1172-1175). -/
def trendDates (today : Date) (periodDays : Nat) : List Date :=
  (List.range (periodDays + 1)).map (fun (i : Nat) => today - periodDays + (i : Int))

/-- The rows the one range query returns:
    `SELECT date, currency, rate FROM rates WHERE date >= ? AND date <= ?`
    (the `ORDER BY date` clause does not matter to the keyed dictionary the
    rows are poured into, the primary key making row order irrelevant). -/
def rangeRows (db : Store) (today : Date) (periodDays : Nat) : List RateRow :=
  db.rates.filter (fun row => decide (today - periodDays ≤ row.1 ∧ row.1 ≤ today))

/-- The stored value the trend scan sees for one (date, currency) slot:
    `db_data[date][curr]`, or `none` when absent or when the range query
    failed (in which case the except branch treats every slot as missing). -/
def trendDbVal (dbFailR : Bool) (db : Store) (today : Date) (periodDays : Nat)
    (d : Date) (c : Currency) : Option Rate :=
  if dbFailR then none else lookupRate (rangeRows db today periodDays) d c

/-- The per-currency parallel arrays `all_rates` right after the database
    scan (lines 1198-1218): one slot per enumerated date, `none` for a
    missing value. -/
def initialRates (dbFailR : Bool) (db : Store) (today : Date) (periodDays : Nat)
    (c : Currency) : List (Option Rate) :=
  (trendDates today periodDays).map (fun d => trendDbVal dbFailR db today periodDays d c)

/-- `missing_dates` (lines 1197-1218): with a working store, every enumerated
    date for which some supported currency has no stored rate; when the range
    query failed, every enumerated date. -/
def missingDates (dbFailR : Bool) (db : Store) (supported : List Currency)
    (today : Date) (periodDays : Nat) : List Date :=
  if dbFailR then trendDates today periodDays
  else (trendDates today periodDays).filter
    (fun d => !(supported.all (fun c => (trendDbVal false db today periodDays d c).isSome)))

/-- The body of the backfill loop for one fetched date (lines 1229-1233):
    if the response's `tasas` is non-empty, overwrite the slot at this date's
    index for every supported currency the response contains. -/
def backfillDate (supported : List Currency) (allDates : List Date)
    (rates : Currency → List (Option Rate)) (d : Date) (data : ApiData)
    (c : Currency) : List (Option Rate) :=
  if data.tasas = [] then rates c
  else if c ∈ supported then
    match findAssoc data.tasas c with
    | some r => (rates c).set (allDates.indexOf d) (some r)
    | none => rates c
  else rates c

/-- The backfill loop (lines 1221-1236): one forced fetch per missing date,
    threading the cache/store state; a failed fetch is caught and leaves that
    date's slots untouched, the loop going on with the next date. -/
def backfillLoop (api : ApiSource) (dbFailR dbFailW : Bool) (now : Nat) (nowIso : String)
    (supported : List Currency) (allDates : List Date) :
    List Date → (Currency → List (Option Rate)) → FetchState → Nat →
    (Currency → List (Option Rate)) × FetchState × Nat
  | [], rates, st, calls => (rates, st, calls)
  | d :: rest, rates, st, calls =>
      let fr := fetch_exchange_rates api dbFailR dbFailW now nowIso st d true
      match fr.result with
      | .ok data =>
          backfillLoop api dbFailR dbFailW now nowIso supported allDates rest
            (backfillDate supported allDates rates d data) fr.st (calls + fr.apiCalls)
      | .error _ =>
          backfillLoop api dbFailR dbFailW now nowIso supported allDates rest
            rates fr.st (calls + fr.apiCalls)

/-- Lines 1240-1246: pair each enumerated date with its slot and keep the
    non-null ones, preserving order. -/
def validSeries (allDates : List Date) (vals : List (Option Rate)) : List (Date × Rate) :=
  (allDates.zip vals).filterMap (fun p => p.2.map (fun r => (p.1, r)))

/-- Lines 1256-1267: opportunistically cache a trend entry for every other
    supported currency whose non-null series is non-empty, from the same
    already-fetched table. -/
def cacheOthers (supported : List Currency) (currency : Currency) (periodDays : Nat)
    (now : Nat) (allDates : List Date) (rates : Currency → List (Option Rate))
    (tc : TrendCache) : TrendCache :=
  supported.foldl (fun acc c =>
    if c = currency then acc
    else
      let vd := validSeries allDates (rates c)
      if vd = [] then acc
      else upsertAssoc acc (c, periodDays) ⟨vd.map Prod.fst, vd.map Prod.snd, now⟩) tc

/-- Outcome of one `get_trend_data` call: the returned entry (`none` when an
    exception escaped to the caller), the trend cache and resolver state
    afterwards, and the number of API round trips made. -/
structure TrendOutcome where
  result : Option TrendEntry
  cache : TrendCache
  st : FetchState
  apiCalls : Nat
  deriving Repr, DecidableEq

/-- `get_trend_data` (lines 1145-1269).  The dictionary `all_rates` only has
    the supported currencies as keys, so the access `all_rates[currency]` on
    line 1240 raises `KeyError` for any other requested currency — after the
    backfill already ran; the raise is modelled by `result = none`. -/
def get_trend_data (api : ApiSource) (dbFailR dbFailW : Bool) (now : Nat)
    (nowIso : String) (today : Date) (supported : List Currency)
    (tc : TrendCache) (st : FetchState) (currency : Currency) (periodDays : Nat) :
    TrendOutcome :=
  match trendCacheHit tc (currency, periodDays) now with
  | some e => ⟨some e, tc, st, 0⟩
  | none =>
    let allDates := trendDates today periodDays
    let rates0 := initialRates dbFailR st.db today periodDays
    let missing := missingDates dbFailR st.db supported today periodDays
    let step := backfillLoop api dbFailR dbFailW now nowIso supported allDates
                  missing rates0 st 0
    let rates1 := step.1
    let st1 := step.2.1
    let calls := step.2.2
    if currency ∈ supported then
      let vd := validSeries allDates (rates1 currency)
      if vd = [] then ⟨some ⟨[], [], now⟩, tc, st1, calls⟩
      else
        let entry : TrendEntry := ⟨vd.map Prod.fst, vd.map Prod.snd, now⟩
        let tc1 := upsertAssoc tc (currency, periodDays) entry
        ⟨some entry, cacheOthers supported currency periodDays now allDates rates1 tc1,
         st1, calls⟩
    else ⟨none, tc, st1, calls⟩

/-- The per-currency table `all_rates` as it stands after the backfill loop of
    `get_trend_data`, for a run that missed the trend cache: it is the value
    the series and the opportunistic cache entries are derived from. -/
def backfillTable (api : ApiSource) (dbFailR dbFailW : Bool) (now : Nat)
    (nowIso : String) (today : Date) (supported : List Currency) (st : FetchState)
    (periodDays : Nat) : Currency → List (Option Rate) :=
  (backfillLoop api dbFailR dbFailW now nowIso supported (trendDates today periodDays)
    (missingDates dbFailR st.db supported today periodDays)
    (initialRates dbFailR st.db today periodDays) st 0).1

/-- The loop of the closure `rebuild_task` (lines 1039-1051): walk the range
    one day at a time, fetch with `force_api=True`, and skip days whose fetch
    raised. -/
def rebuildTaskLoop (api : ApiSource) (dbFailR dbFailW : Bool) (now : Nat)
    (nowIso : String) : Nat → Date → FetchState → Nat → FetchState × Nat
  | 0, _, st, calls => (st, calls)
  | fuel + 1, d, st, calls =>
      let fr := fetch_exchange_rates api dbFailR dbFailW now nowIso st d true
      rebuildTaskLoop api dbFailR dbFailW now nowIso fuel (d + 1) fr.st (calls + fr.apiCalls)

/-- The closure `rebuild_task` as defined inside `rebuild_database`: one
    forced fetch for every day from `startD` to `endD` inclusive.  The source
    defines it but never starts it (see `rebuild_database`). -/
def rebuild_task (api : ApiSource) (dbFailR dbFailW : Bool) (now : Nat)
    (nowIso : String) (startD endD : Date) (st : FetchState) : FetchState × Nat :=
  rebuildTaskLoop api dbFailR dbFailW now nowIso (endD - startD + 1).toNat startD st 0

/-- `rebuild_database` (lines 1035-1051): imports `threading` and defines the
    closure `rebuild_task`, but neither starts a thread with it nor calls it —
    the method returns with the engine state untouched and no fetch performed. -/
def rebuild_database (api : ApiSource) (dbFailR dbFailW : Bool) (now : Nat)
    (nowIso : String) (startD endD : Date) (st : FetchState) : FetchState × Nat :=
  let task := fun (_ : Unit) => rebuild_task api dbFailR dbFailW now nowIso startD endD st
  let _ := task
  (st, 0)

/-- The `rebuild` branch of `handle_db_commands` (lines 950-988): DELETE every
    row of `rates` and `metadata`, call `rebuild_database` for the last 30
    days, and return the "Rebuild Initiated" acknowledgement immediately (the
    final `Bool`); a failure of the clear (modelled by `clearFail`) is caught
    and shown as an error item instead. -/
def handle_db_rebuild (api : ApiSource) (dbFailR dbFailW clearFail : Bool) (now : Nat)
    (nowIso : String) (startD endD : Date) (st : FetchState) :
    FetchState × Nat × Bool :=
  if clearFail then (st, 0, false)
  else
    let cleared : FetchState := ⟨st.mem, Store.empty⟩
    let stepRes := rebuild_database api dbFailR dbFailW now nowIso startD endD cleared
    (stepRes.1, stepRes.2, true)

/-- The spec's trend-series invariant: the two series are index-aligned and
    of equal length, with strictly ascending (hence duplicate-free) dates. -/
def TrendInv (e : TrendEntry) : Prop :=
  e.dates.length = e.rates.length ∧ e.dates.Pairwise (· < ·)

/-! ## Association-list and store-write lemmas -/

theorem findAssoc_imp_mem {α β : Type} [DecidableEq α] {l : List (α × β)} {k : α} {v : β}
    (h : findAssoc l k = some v) : (k, v) ∈ l := by
  induction l with
  | nil => simp [findAssoc] at h
  | cons p rest ih =>
      by_cases hp : p.1 = k
      · rw [findAssoc, if_pos hp] at h
        obtain rfl : p.2 = v := Option.some.inj h
        exact List.mem_cons.2 (Or.inl (by rw [← hp]))
      · rw [findAssoc, if_neg hp] at h
        exact List.mem_cons.2 (Or.inr (ih h))

theorem findAssoc_upsertAssoc_self {α β : Type} [DecidableEq α] (l : List (α × β))
    (k : α) (v : β) : findAssoc (upsertAssoc l k v) k = some v := by
  induction l with
  | nil => simp [upsertAssoc, findAssoc]
  | cons p rest ih =>
      by_cases hp : p.1 = k
      · simp [upsertAssoc, hp, findAssoc]
      · simp [upsertAssoc, hp, findAssoc, ih]

theorem findAssoc_upsertAssoc_ne {α β : Type} [DecidableEq α] (l : List (α × β))
    {k k' : α} (v : β) (h : k' ≠ k) :
    findAssoc (upsertAssoc l k v) k' = findAssoc l k' := by
  have hk : ¬(k = k') := fun hh => h hh.symm
  induction l with
  | nil => simp [upsertAssoc, findAssoc, hk]
  | cons p rest ih =>
      by_cases hp : p.1 = k
      · simp [upsertAssoc, hp, findAssoc, hk]
      · by_cases hp' : p.1 = k'
        · simp [upsertAssoc, hp, findAssoc, hp', h]
        · simp [upsertAssoc, hp, findAssoc, hp', ih]

theorem upsertAssoc_upsertAssoc {α β : Type} [DecidableEq α] (l : List (α × β))
    (k : α) (v v' : β) : upsertAssoc (upsertAssoc l k v) k v' = upsertAssoc l k v' := by
  induction l with
  | nil => simp [upsertAssoc]
  | cons p rest ih =>
      by_cases hp : p.1 = k
      · simp [upsertAssoc, hp]
      · simp [upsertAssoc, hp, ih]

theorem lookupRate_insertOrReplaceRate_self (rows : List RateRow) (d : Date)
    (c : Currency) (r : Rate) :
    lookupRate (insertOrReplaceRate rows d c r) d c = some r := by
  induction rows with
  | nil => simp [insertOrReplaceRate, lookupRate]
  | cons row rest ih =>
      by_cases h : row.1 = d ∧ row.2.1 = c
      · simp [insertOrReplaceRate, h, lookupRate]
      · simp [insertOrReplaceRate, h, lookupRate, ih]

theorem lookupRate_insertOrReplaceRate_ne (rows : List RateRow) {d d' : Date}
    {c c' : Currency} (r : Rate) (hne : ¬(d' = d ∧ c' = c)) :
    lookupRate (insertOrReplaceRate rows d c r) d' c' = lookupRate rows d' c' := by
  have hne' : ¬(d = d' ∧ c = c') := fun hh => hne ⟨hh.1.symm, hh.2.symm⟩
  induction rows with
  | nil => simp [insertOrReplaceRate, lookupRate, hne']
  | cons row rest ih =>
      by_cases h : row.1 = d ∧ row.2.1 = c
      · have h1 : ¬(row.1 = d' ∧ row.2.1 = c') := by
          rw [h.1, h.2]; exact hne'
        simp [insertOrReplaceRate, h, lookupRate, hne', h1]
      · by_cases h2 : row.1 = d' ∧ row.2.1 = c'
        · simp [insertOrReplaceRate, h, lookupRate, h2, hne]
        · simp [insertOrReplaceRate, h, lookupRate, h2, ih]

theorem insertOrReplaceRate_eq_self {rows : List RateRow} {d : Date}
    {c : Currency} {r : Rate} (h : lookupRate rows d c = some r) :
    insertOrReplaceRate rows d c r = rows := by
  induction rows with
  | nil => simp [lookupRate] at h
  | cons row rest ih =>
      by_cases hrow : row.1 = d ∧ row.2.1 = c
      · rw [lookupRate, if_pos hrow] at h
        obtain hr : row.2.2 = r := Option.some.inj h
        rw [insertOrReplaceRate, if_pos hrow, ← hrow.1, ← hrow.2, ← hr]
      · rw [lookupRate, if_neg hrow] at h
        rw [insertOrReplaceRate, if_neg hrow, ih h]

theorem writeRows_lookup_other (d : Date) (m : RateMap) (rows : List RateRow)
    {d' : Date} {c : Currency} (h : ¬(d' = d ∧ c ∈ m.map Prod.fst)) :
    lookupRate (writeRows d m rows) d' c = lookupRate rows d' c := by
  induction m generalizing rows with
  | nil => rfl
  | cons cr rest ih =>
      have hstep : ¬(d' = d ∧ c = cr.1) := by
        intro hh
        exact h ⟨hh.1, by simp [hh.2]⟩
      have hrest : ¬(d' = d ∧ c ∈ rest.map Prod.fst) := by
        intro hh
        exact h ⟨hh.1, by simp [hh.2]⟩
      calc lookupRate (writeRows d (cr :: rest) rows) d' c
          = lookupRate (writeRows d rest (insertOrReplaceRate rows d cr.1 cr.2)) d' c := rfl
        _ = lookupRate (insertOrReplaceRate rows d cr.1 cr.2) d' c := ih _ hrest
        _ = lookupRate rows d' c := lookupRate_insertOrReplaceRate_ne rows cr.2 hstep

theorem writeRows_lookup_mem (d : Date) {m : RateMap} (rows : List RateRow)
    {c : Currency} {r : Rate} (hnd : (m.map Prod.fst).Nodup) (hmem : (c, r) ∈ m) :
    lookupRate (writeRows d m rows) d c = some r := by
  induction m generalizing rows with
  | nil => simp at hmem
  | cons cr rest ih =>
      have hnd2 : (cr.1 :: rest.map Prod.fst).Nodup := by
        rw [← List.map_cons]; exact hnd
      obtain ⟨hnotin, hndrest⟩ := List.nodup_cons.1 hnd2
      have hstep : writeRows d (cr :: rest) rows =
          writeRows d rest (insertOrReplaceRate rows d cr.1 cr.2) := rfl
      rcases List.mem_cons.1 hmem with hh | hh
      · have hc : cr.1 = c := by rw [← hh]
        have hr : cr.2 = r := by rw [← hh]
        have hcnot : c ∉ rest.map Prod.fst := by rw [← hc]; exact hnotin
        rw [hstep,
          writeRows_lookup_other d rest _ (fun hhh => hcnot hhh.2),
          hc, hr]
        exact lookupRate_insertOrReplaceRate_self rows d c r
      · exact hstep ▸ ih _ hndrest hh

theorem writeRows_noop {d : Date} {m : RateMap} {rows : List RateRow}
    (h : ∀ cr ∈ m, lookupRate rows d cr.1 = some cr.2) :
    writeRows d m rows = rows := by
  induction m with
  | nil => rfl
  | cons cr rest ih =>
      have h0 : insertOrReplaceRate rows d cr.1 cr.2 = rows :=
        insertOrReplaceRate_eq_self (h cr (List.mem_cons_self cr rest))
      calc writeRows d (cr :: rest) rows
          = writeRows d rest (insertOrReplaceRate rows d cr.1 cr.2) := rfl
        _ = writeRows d rest rows := by rw [h0]
        _ = rows := ih (fun cr' hcr' => h cr' (List.mem_cons_of_mem cr hcr'))

/-! ## Resolver lemmas -/

theorem fetch_force (api : ApiSource) (dbFailR dbFailW : Bool) (now : Nat)
    (nowIso : String) (st : FetchState) (target : Date) :
    fetch_exchange_rates api dbFailR dbFailW now nowIso st target true =
      fetchFromApi api dbFailW now nowIso st target := rfl

theorem fetchFromApi_apiCalls (api : ApiSource) (dbFailW : Bool) (now : Nat)
    (nowIso : String) (st : FetchState) (target : Date) :
    (fetchFromApi api dbFailW now nowIso st target).apiCalls = 1 := by
  cases h : api target <;> simp [fetchFromApi, h]

theorem fetchFromApi_error {api : ApiSource} (dbFailW : Bool) (now : Nat)
    (nowIso : String) (st : FetchState) {target : Date} {e : ApiErr}
    (h : api target = .error e) :
    fetchFromApi api dbFailW now nowIso st target = ⟨.error e, st, 1⟩ := by
  simp [fetchFromApi, h]

/-! ## Date-range lemmas -/

theorem trendDates_length (today : Date) (p : Nat) :
    (trendDates today p).length = p + 1 := by
  rw [trendDates, List.length_map, List.length_range]

theorem trendDates_pairwise (today : Date) (p : Nat) :
    (trendDates today p).Pairwise (· < ·) := by
  rw [trendDates]
  exact List.Pairwise.map _
    (fun a b hab => add_lt_add_left (Int.ofNat_lt.2 hab) (today - p))
    (List.pairwise_lt_range (p + 1))

theorem trendDates_nodup (today : Date) (p : Nat) :
    (trendDates today p).Nodup :=
  (trendDates_pairwise today p).imp (fun h => ne_of_lt h)

theorem missingDates_sublist (dbFailR : Bool) (db : Store) (supported : List Currency)
    (today : Date) (p : Nat) :
    List.Sublist (missingDates dbFailR db supported today p) (trendDates today p) := by
  unfold missingDates
  cases dbFailR
  · simp only [Bool.false_eq_true, if_false]
    exact List.filter_sublist _
  · simp

theorem missingDates_nodup (dbFailR : Bool) (db : Store) (supported : List Currency)
    (today : Date) (p : Nat) :
    (missingDates dbFailR db supported today p).Nodup :=
  (trendDates_nodup today p).sublist (missingDates_sublist dbFailR db supported today p)

theorem mem_missingDates {db : Store} {supported : List Currency} {today : Date}
    {p : Nat} {d : Date} :
    d ∈ missingDates false db supported today p ↔
      d ∈ trendDates today p ∧
        ∃ c ∈ supported, trendDbVal false db today p d c = none := by
  have hred : missingDates false db supported today p =
      (trendDates today p).filter
        (fun d =>
          !(supported.all (fun c => (trendDbVal false db today p d c).isSome))) := rfl
  rw [hred]
  constructor
  · intro hmem
    obtain ⟨hd, hpred⟩ := List.mem_filter.1 hmem
    rw [Bool.not_eq_true'] at hpred
    obtain ⟨c, hc, hfc⟩ := List.all_eq_false.1 hpred
    refine ⟨hd, c, hc, ?_⟩
    cases hval : trendDbVal false db today p d c
    · rfl
    · rw [hval] at hfc
      simp at hfc
  · rintro ⟨hd, c, hc, hval⟩
    refine List.mem_filter.2 ⟨hd, ?_⟩
    rw [Bool.not_eq_true']
    exact List.all_eq_false.2 ⟨c, hc, by rw [hval]; simp⟩

/-! ## Backfill-loop lemmas -/

theorem backfillLoop_calls (api : ApiSource) (dbFailR dbFailW : Bool) (now : Nat)
    (nowIso : String) (supported : List Currency) (allDates : List Date)
    (ds : List Date) (rates : Currency → List (Option Rate)) (st : FetchState)
    (n : Nat) :
    (backfillLoop api dbFailR dbFailW now nowIso supported allDates
        ds rates st n).2.2 = n + ds.length := by
  induction ds generalizing rates st n with
  | nil => simp [backfillLoop]
  | cons d rest ih =>
      cases h : api d with
      | error e =>
          rw [backfillLoop]
          simp only [fetch_force, fetchFromApi_error dbFailW now nowIso st h]
          rw [ih]
          simp only [List.length_cons]
          omega
      | ok data =>
          rw [backfillLoop]
          simp only [fetch_force, fetchFromApi, h]
          rw [ih]
          simp only [List.length_cons]
          omega

theorem backfillLoop_rates_of_fail (api : ApiSource) (dbFailR dbFailW : Bool)
    (now : Nat) (nowIso : String) (supported : List Currency) (allDates : List Date)
    {ds : List Date} (rates : Currency → List (Option Rate)) (st : FetchState)
    (n : Nat) (hfail : ∀ d ∈ ds, ∃ e, api d = .error e) :
    (backfillLoop api dbFailR dbFailW now nowIso supported allDates
        ds rates st n).1 = rates := by
  induction ds generalizing st n with
  | nil => rfl
  | cons d rest ih =>
      obtain ⟨e, he⟩ := hfail d (List.mem_cons_self d rest)
      rw [backfillLoop]
      simp only [fetch_force, fetchFromApi_error dbFailW now nowIso st he]
      exact ih _ _ (fun d' hd' => hfail d' (List.mem_cons_of_mem d hd'))

theorem backfillDate_length (supported : List Currency) (allDates : List Date)
    (rates : Currency → List (Option Rate)) (d : Date) (data : ApiData)
    (c : Currency) :
    (backfillDate supported allDates rates d data c).length = (rates c).length := by
  unfold backfillDate
  split
  · rfl
  · split
    · cases findAssoc data.tasas c <;> simp
    · rfl

theorem backfillLoop_length (api : ApiSource) (dbFailR dbFailW : Bool) (now : Nat)
    (nowIso : String) (supported : List Currency) (allDates : List Date)
    (ds : List Date) (rates : Currency → List (Option Rate)) (st : FetchState)
    (n : Nat) (c : Currency) :
    ((backfillLoop api dbFailR dbFailW now nowIso supported allDates
        ds rates st n).1 c).length = (rates c).length := by
  induction ds generalizing rates st n with
  | nil => rfl
  | cons d rest ih =>
      cases h : api d with
      | error e =>
          rw [backfillLoop]
          simp only [fetch_force, fetchFromApi_error dbFailW now nowIso st h]
          exact ih _ _ _
      | ok data =>
          rw [backfillLoop]
          simp only [fetch_force, fetchFromApi, h]
          rw [ih]
          exact backfillDate_length supported allDates rates d data c

theorem backfillDate_get_ne (supported : List Currency) (allDates : List Date)
    (rates : Currency → List (Option Rate)) (d : Date) (data : ApiData)
    (c : Currency) {i : Nat} (hne : allDates.indexOf d ≠ i) :
    (backfillDate supported allDates rates d data c).get? i = (rates c).get? i := by
  unfold backfillDate
  split
  · rfl
  · split
    · cases findAssoc data.tasas c with
      | none => rfl
      | some r => exact List.get?_set_ne _ _ hne
    · rfl

theorem backfillLoop_get_preserved (api : ApiSource) (dbFailR dbFailW : Bool)
    (now : Nat) (nowIso : String) (supported : List Currency) (allDates : List Date)
    {ds : List Date} (rates : Currency → List (Option Rate)) (st : FetchState)
    (n : Nat) (c : Currency) {i : Nat}
    (hne : ∀ d ∈ ds, allDates.indexOf d ≠ i) :
    ((backfillLoop api dbFailR dbFailW now nowIso supported allDates
        ds rates st n).1 c).get? i = (rates c).get? i := by
  induction ds generalizing rates st n with
  | nil => rfl
  | cons d rest ih =>
      cases h : api d with
      | error e =>
          rw [backfillLoop]
          simp only [fetch_force, fetchFromApi_error dbFailW now nowIso st h]
          exact ih _ _ _ (fun d' hd' => hne d' (List.mem_cons_of_mem d hd'))
      | ok data =>
          rw [backfillLoop]
          simp only [fetch_force, fetchFromApi, h]
          rw [ih _ _ _ (fun d' hd' => hne d' (List.mem_cons_of_mem d hd'))]
          exact backfillDate_get_ne supported allDates rates d data c
            (hne d (List.mem_cons_self d rest))

theorem backfillLoop_get_filled (api : ApiSource) (dbFailR dbFailW : Bool)
    (now : Nat) (nowIso : String) (supported : List Currency) (allDates : List Date)
    {ds : List Date} (rates : Currency → List (Option Rate)) (st : FetchState)
    (n : Nat) {d : Date} {data : ApiData} {c : Currency} {r : Rate}
    (hsub : ∀ x ∈ ds, x ∈ allDates) (hnd : ds.Nodup)
    (hd : d ∈ ds) (hdata : api d = .ok data) (htas : data.tasas ≠ [])
    (hc : c ∈ supported) (hr : findAssoc data.tasas c = some r)
    (hlen : (rates c).length = allDates.length) :
    ((backfillLoop api dbFailR dbFailW now nowIso supported allDates
        ds rates st n).1 c).get? (allDates.indexOf d) = some (some r) := by
  induction ds generalizing rates st n with
  | nil => simp at hd
  | cons d0 rest ih =>
      obtain ⟨hd0notin, hndrest⟩ := List.nodup_cons.1 hnd
      rcases List.mem_cons.1 hd with hh | hh
      · subst hh
        rw [backfillLoop]
        simp only [fetch_force, fetchFromApi, hdata]
        have hidx : allDates.indexOf d < allDates.length :=
          List.indexOf_lt_length.2 (hsub d (List.mem_cons_self d rest))
        have hset : (backfillDate supported allDates rates d data c).get?
            (allDates.indexOf d) = some (some r) := by
          unfold backfillDate
          rw [if_neg (by simp [htas]), if_pos hc, hr]
          exact List.get?_set_eq_of_lt _ (by rw [hlen]; exact hidx)
        rw [backfillLoop_get_preserved api dbFailR dbFailW now nowIso supported
          allDates _ _ _ c ?hne]
        · exact hset
        case hne =>
          intro d' hd' heq
          have hd'mem : d' ∈ allDates := hsub d' (List.mem_cons_of_mem d hd')
          have : d' = d := (List.indexOf_inj hd'mem (hsub d (List.mem_cons_self d rest))).1 heq
          exact hd0notin (this ▸ hd')
      · cases h0 : api d0 with
        | error e =>
            rw [backfillLoop]
            simp only [fetch_force, fetchFromApi_error dbFailW now nowIso st h0]
            exact ih _ _ _ (fun x hx => hsub x (List.mem_cons_of_mem d0 hx))
              hndrest hh hlen
        | ok data0 =>
            rw [backfillLoop]
            simp only [fetch_force, fetchFromApi, h0]
            exact ih _ _ _ (fun x hx => hsub x (List.mem_cons_of_mem d0 hx))
              hndrest hh
              ((backfillDate_length supported allDates rates d0 data0 c).trans hlen)

/-! ## Valid-series lemmas -/

theorem validSeries_nil (vals : List (Option Rate)) : validSeries [] vals = [] := rfl

theorem validSeries_cons_nil (a : Date) (l : List Date) :
    validSeries (a :: l) [] = [] := rfl

theorem validSeries_cons_some (a : Date) (l : List Date) (r : Rate)
    (vs : List (Option Rate)) :
    validSeries (a :: l) (some r :: vs) = (a, r) :: validSeries l vs := rfl

theorem validSeries_cons_none (a : Date) (l : List Date) (vs : List (Option Rate)) :
    validSeries (a :: l) (none :: vs) = validSeries l vs := rfl

theorem validSeries_map_fst_sublist (l : List Date) (vals : List (Option Rate)) :
    List.Sublist ((validSeries l vals).map Prod.fst) l := by
  induction l generalizing vals with
  | nil => simp [validSeries_nil]
  | cons a l ih =>
      cases vals with
      | nil => simp [validSeries_cons_nil]
      | cons v vs =>
          cases v with
          | none =>
              rw [validSeries_cons_none]
              exact (ih vs).cons a
          | some r =>
              rw [validSeries_cons_some, List.map_cons]
              exact (ih vs).cons₂ a

theorem mem_validSeries {l : List Date} {vals : List (Option Rate)} {d : Date}
    {r : Rate} :
    (d, r) ∈ validSeries l vals ↔
      ∃ i, l.get? i = some d ∧ vals.get? i = some (some r) := by
  induction l generalizing vals with
  | nil => simp [validSeries_nil]
  | cons a l ih =>
      cases vals with
      | nil => simp [validSeries_cons_nil]
      | cons v vs =>
          cases v with
          | none =>
              rw [validSeries_cons_none, ih]
              constructor
              · rintro ⟨i, hi1, hi2⟩
                exact ⟨i + 1, by simpa using hi1, by simpa using hi2⟩
              · rintro ⟨i, hi1, hi2⟩
                cases i with
                | zero => simp at hi2
                | succ j => exact ⟨j, by simpa using hi1, by simpa using hi2⟩
          | some r0 =>
              rw [validSeries_cons_some]
              simp only [List.mem_cons, ih]
              constructor
              · rintro (heq | ⟨i, hi1, hi2⟩)
                · obtain ⟨h1, h2⟩ := Prod.mk.inj heq
                  exact ⟨0, by simp [h1], by simp [h2]⟩
                · exact ⟨i + 1, by simpa using hi1, by simpa using hi2⟩
              · rintro ⟨i, hi1, hi2⟩
                cases i with
                | zero =>
                    left
                    simp only [List.get?_cons_zero, Option.some.injEq] at hi1 hi2
                    rw [hi1, hi2]
                | succ j =>
                    right
                    exact ⟨j, by simpa using hi1, by simpa using hi2⟩

theorem zip_map_fst_snd {α β : Type} (l : List (α × β)) :
    (l.map Prod.fst).zip (l.map Prod.snd) = l := by
  induction l with
  | nil => rfl
  | cons p rest ih => simp [ih]

theorem validSeries_all_none {l : List Date} {vals : List (Option Rate)}
    (h : ∀ v ∈ vals, v = none) : validSeries l vals = [] := by
  induction l generalizing vals with
  | nil => rfl
  | cons a l ih =>
      cases vals with
      | nil => rfl
      | cons v vs =>
          have hv : v = none := h v (List.mem_cons_self v vs)
          subst hv
          rw [validSeries_cons_none]
          exact ih (fun v' hv' => h v' (List.mem_cons_of_mem none hv'))

theorem trendCacheHit_some {tc : TrendCache} {k : TrendKey} {now : Nat}
    {e : TrendEntry} (h : trendCacheHit tc k now = some e) :
    findAssoc tc k = some e := by
  unfold trendCacheHit at h
  cases hf : findAssoc tc k with
  | none =>
      rw [hf] at h
      exact Option.noConfusion h
  | some e0 =>
      rw [hf] at h
      dsimp only at h
      by_cases ht : (now : Int) - e0.timestamp < CACHE_DURATION
      · rw [if_pos ht] at h
        exact h
      · rw [if_neg ht] at h
        exact Option.noConfusion h

/-! ## Opportunistic trend-cache lemmas -/

theorem cacheOthers_lookup_notin (supported : List Currency) (currency : Currency)
    (p : Nat) (now : Nat) (allDates : List Date)
    (rates : Currency → List (Option Rate)) (tc : TrendCache) {c : Currency}
    (h : c ∉ supported) :
    findAssoc (cacheOthers supported currency p now allDates rates tc) (c, p) =
      findAssoc tc (c, p) := by
  induction supported generalizing tc with
  | nil => rfl
  | cons c0 rest ih =>
      have hc0 : c ≠ c0 := fun hh => h (hh ▸ List.mem_cons_self c0 rest)
      have hrest : c ∉ rest := fun hh => h (List.mem_cons_of_mem c0 hh)
      have hstep : ∀ tc' : TrendCache,
          cacheOthers (c0 :: rest) currency p now allDates rates tc' =
            cacheOthers rest currency p now allDates rates
              (if c0 = currency then tc'
               else if validSeries allDates (rates c0) = [] then tc'
               else upsertAssoc tc' (c0, p)
                 ⟨(validSeries allDates (rates c0)).map Prod.fst,
                  (validSeries allDates (rates c0)).map Prod.snd, now⟩) := by
        intro tc'
        rw [cacheOthers, List.foldl_cons]
        by_cases h1 : c0 = currency
        · simp only [h1, if_pos rfl]
          rfl
        · by_cases h2 : validSeries allDates (rates c0) = []
          · simp only [if_neg h1, h2, if_pos rfl]
            rfl
          · simp only [if_neg h1, if_neg h2]
            rfl
      rw [hstep tc, ih _ hrest]
      by_cases h1 : c0 = currency
      · rw [if_pos h1]
      · by_cases h2 : validSeries allDates (rates c0) = []
        · rw [if_neg h1, if_pos h2]
        · rw [if_neg h1, if_neg h2]
          exact findAssoc_upsertAssoc_ne _ _ (fun heq => hc0 (Prod.mk.inj heq).1)

theorem cacheOthers_lookup_mem (supported : List Currency) (currency : Currency)
    (p : Nat) (now : Nat) (allDates : List Date)
    (rates : Currency → List (Option Rate)) (tc : TrendCache) {c : Currency}
    (hnd : supported.Nodup) (hc : c ∈ supported) (hcne : c ≠ currency)
    (hvd : validSeries allDates (rates c) ≠ []) :
    findAssoc (cacheOthers supported currency p now allDates rates tc) (c, p) =
      some ⟨(validSeries allDates (rates c)).map Prod.fst,
            (validSeries allDates (rates c)).map Prod.snd, now⟩ := by
  induction supported generalizing tc with
  | nil => simp at hc
  | cons c0 rest ih =>
      obtain ⟨hc0notin, hndrest⟩ := List.nodup_cons.1 hnd
      have hstep : ∀ tc' : TrendCache,
          cacheOthers (c0 :: rest) currency p now allDates rates tc' =
            cacheOthers rest currency p now allDates rates
              (if c0 = currency then tc'
               else if validSeries allDates (rates c0) = [] then tc'
               else upsertAssoc tc' (c0, p)
                 ⟨(validSeries allDates (rates c0)).map Prod.fst,
                  (validSeries allDates (rates c0)).map Prod.snd, now⟩) := by
        intro tc'
        rw [cacheOthers, List.foldl_cons]
        by_cases h1 : c0 = currency
        · simp only [h1, if_pos rfl]
          rfl
        · by_cases h2 : validSeries allDates (rates c0) = []
          · simp only [if_neg h1, h2, if_pos rfl]
            rfl
          · simp only [if_neg h1, if_neg h2]
            rfl
      rcases List.mem_cons.1 hc with hh | hh
      · subst hh
        rw [hstep tc, if_neg hcne, if_neg hvd,
          cacheOthers_lookup_notin rest currency p now allDates rates _ hc0notin]
        exact findAssoc_upsertAssoc_self _ _ _
      · have hcne0 : c ≠ c0 := fun heq => hc0notin (heq ▸ hh)
        rw [hstep tc]
        exact ih _ hndrest hh

theorem cacheOthers_lookup_empty (supported : List Currency) (currency : Currency)
    (p : Nat) (now : Nat) (allDates : List Date)
    (rates : Currency → List (Option Rate)) (tc : TrendCache) {c : Currency}
    (hnd : supported.Nodup)
    (hvd : validSeries allDates (rates c) = []) :
    findAssoc (cacheOthers supported currency p now allDates rates tc) (c, p) =
      findAssoc tc (c, p) := by
  induction supported generalizing tc with
  | nil => rfl
  | cons c0 rest ih =>
      obtain ⟨hc0notin, hndrest⟩ := List.nodup_cons.1 hnd
      have hstep : ∀ tc' : TrendCache,
          cacheOthers (c0 :: rest) currency p now allDates rates tc' =
            cacheOthers rest currency p now allDates rates
              (if c0 = currency then tc'
               else if validSeries allDates (rates c0) = [] then tc'
               else upsertAssoc tc' (c0, p)
                 ⟨(validSeries allDates (rates c0)).map Prod.fst,
                  (validSeries allDates (rates c0)).map Prod.snd, now⟩) := by
        intro tc'
        rw [cacheOthers, List.foldl_cons]
        by_cases h1 : c0 = currency
        · simp only [h1, if_pos rfl]
          rfl
        · by_cases h2 : validSeries allDates (rates c0) = []
          · simp only [if_neg h1, h2, if_pos rfl]
            rfl
          · simp only [if_neg h1, if_neg h2]
            rfl
      rw [hstep tc, ih _ hndrest]
      by_cases h1 : c0 = currency
      · rw [if_pos h1]
      · by_cases h2 : validSeries allDates (rates c0) = []
        · rw [if_neg h1, if_pos h2]
        · rw [if_neg h1, if_neg h2]
          have hcc0 : c ≠ c0 := by
            intro heq
            subst heq
            exact h2 hvd
          exact findAssoc_upsertAssoc_ne _ _ (fun heq => hcc0 (Prod.mk.inj heq).1)

theorem cacheOthers_lookup_requested (supported : List Currency) (currency : Currency)
    (p pd : Nat) (now : Nat) (allDates : List Date)
    (rates : Currency → List (Option Rate)) (tc : TrendCache) :
    findAssoc (cacheOthers supported currency p now allDates rates tc) (currency, pd) =
      findAssoc tc (currency, pd) := by
  induction supported generalizing tc with
  | nil => rfl
  | cons c0 rest ih =>
      have hstep : ∀ tc' : TrendCache,
          cacheOthers (c0 :: rest) currency p now allDates rates tc' =
            cacheOthers rest currency p now allDates rates
              (if c0 = currency then tc'
               else if validSeries allDates (rates c0) = [] then tc'
               else upsertAssoc tc' (c0, p)
                 ⟨(validSeries allDates (rates c0)).map Prod.fst,
                  (validSeries allDates (rates c0)).map Prod.snd, now⟩) := by
        intro tc'
        rw [cacheOthers, List.foldl_cons]
        by_cases h1 : c0 = currency
        · simp only [h1, if_pos rfl]
          rfl
        · by_cases h2 : validSeries allDates (rates c0) = []
          · simp only [if_neg h1, h2, if_pos rfl]
            rfl
          · simp only [if_neg h1, if_neg h2]
            rfl
      rw [hstep tc, ih]
      by_cases h1 : c0 = currency
      · rw [if_pos h1]
      · by_cases h2 : validSeries allDates (rates c0) = []
        · rw [if_neg h1, if_pos h2]
        · rw [if_neg h1, if_neg h2]
          exact findAssoc_upsertAssoc_ne _ _ (fun heq => h1 (Prod.mk.inj heq).1.symm)

/-! ## Claim theorems -/

/-- C1, counterexample: with a record for date 0 already stored for "ECU", a
forced refetch whose response only covers "USD" leaves the store holding both
rows but the memory snapshot holding only "USD"; a following
`resolve(0, forceRemote=false)` within the TTL answers from the snapshot, so
it returns a mapping different from the stored one and mutates nothing — the
claim that it always returns exactly the stored mapping and repopulates the
snapshot from the store fails on this reachable state. -/
theorem C1_counterexample :
    ((fetch_exchange_rates (fun _ => .error .transientFail) false false 200 "t2"
        (fetch_exchange_rates (fun _ => .ok ⟨true, [("USD", 1)]⟩) false false 100 "t1"
          ⟨MemCache.empty, ⟨[(0, "ECU", 5)], []⟩⟩ 0 true).st 0 false).apiCalls = 0) ∧
    ((fetch_exchange_rates (fun _ => .error .transientFail) false false 200 "t2"
        (fetch_exchange_rates (fun _ => .ok ⟨true, [("USD", 1)]⟩) false false 100 "t1"
          ⟨MemCache.empty, ⟨[(0, "ECU", 5)], []⟩⟩ 0 true).st 0 false).result =
      .ok ⟨true, [("USD", 1)]⟩) ∧
    ((fetch_exchange_rates (fun _ => .ok ⟨true, [("USD", 1)]⟩) false false 100 "t1"
        ⟨MemCache.empty, ⟨[(0, "ECU", 5)], []⟩⟩ 0 true).st.db.rowsFor 0 =
      [("ECU", 5), ("USD", 1)]) ∧
    [("USD", (1 : ℚ))] ≠ [("ECU", (5 : ℚ)), ("USD", 1)] := by
  refine ⟨by decide, by decide, by decide, by decide⟩

/-- C1, amended: if date D has at least one stored RateRecord and the store
read does not fail, `resolve(D, forceRemote=false)` performs no remote call;
when additionally the memory snapshot misses for D, it returns exactly the
stored mapping (as the `tasas` payload) and populates the memory snapshot
from the store data on the way out. -/
theorem C1_store_hit_no_remote (api : ApiSource) (dbFailW : Bool) (now : Nat)
    (nowIso : String) (st : FetchState) (target : Date)
    (hrec : st.db.rowsFor target ≠ []) :
    (fetch_exchange_rates api false dbFailW now nowIso st target false).apiCalls = 0 ∧
    (memLookup st.mem now target = none →
      fetch_exchange_rates api false dbFailW now nowIso st target false =
        ⟨.ok ⟨true, st.db.rowsFor target⟩,
         ⟨⟨some now, some ⟨true, st.db.rowsFor target⟩, some target⟩, st.db⟩, 0⟩) := by
  have hdb : get_rates_from_db false st.db target = some (st.db.rowsFor target) := by
    simp [get_rates_from_db, hrec]
  constructor
  · cases hm : memLookup st.mem now target with
    | some d => simp [fetch_exchange_rates, hm]
    | none => simp [fetch_exchange_rates, hm, hdb]
  · intro hm
    simp [fetch_exchange_rates, hm, hdb]

/-- C1, witness: a store holding a rate for "USD" on date 0 is served with no
remote call even when the remote source always fails. -/
theorem C1_witness :
    (fetch_exchange_rates (fun _ => .error .transientFail) false false 100 "t"
        ⟨MemCache.empty, ⟨[(0, "USD", 2)], []⟩⟩ 0 false).apiCalls = 0 :=
  (C1_store_hit_no_remote (fun _ => .error .transientFail) false 100 "t"
    ⟨MemCache.empty, ⟨[(0, "USD", 2)], []⟩⟩ 0 (by decide)).1

/-- C2: `resolve(D, forceRemote=true)` performs exactly one remote round trip
regardless of the memory cache and store contents, and when the call succeeds
(with the keys of the JSON mapping pairwise distinct, and a working store
write) the store afterwards holds, for every currency of the response, a
RateRecord (D, currency) with the fetched rate. -/
theorem C2_force_remote (api : ApiSource) (dbFailR : Bool) (now : Nat)
    (nowIso : String) (st : FetchState) (target : Date) :
    (fetch_exchange_rates api dbFailR false now nowIso st target true).apiCalls = 1 ∧
    (∀ data, api target = .ok data → (data.tasas.map Prod.fst).Nodup →
      (fetch_exchange_rates api dbFailR false now nowIso st target true).result = .ok data ∧
      ∀ c r, findAssoc data.tasas c = some r →
        lookupRate
          (fetch_exchange_rates api dbFailR false now nowIso st target true).st.db.rates
          target c = some r) := by
  rw [fetch_force]
  refine ⟨fetchFromApi_apiCalls api false now nowIso st target, ?_⟩
  intro data hok hnd
  constructor
  · simp [fetchFromApi, hok]
  · intro c r hcr
    have hmem : (c, r) ∈ data.tasas := findAssoc_imp_mem hcr
    have htas : data.tasas ≠ [] := by
      intro hh
      rw [hh] at hmem
      simp at hmem
    simp only [fetchFromApi, hok]
    rw [show (store_rates_in_db false st.db target data.tasas nowIso).db =
        ⟨writeRows target data.tasas st.db.rates,
         upsertAssoc st.db.metadata "last_update" nowIso⟩ by
      simp [store_rates_in_db, htas]]
    exact writeRows_lookup_mem target st.db.rates hnd hmem

/-- C2, witness: from an empty state a forced fetch of date 5 makes one call
and stores the two fetched rates. -/
theorem C2_witness :
    (fetch_exchange_rates (fun _ => .ok ⟨true, [("USD", 1), ("ECU", 2)]⟩) false false 1 "t"
        ⟨MemCache.empty, Store.empty⟩ 5 true).apiCalls = 1 ∧
    lookupRate
      (fetch_exchange_rates (fun _ => .ok ⟨true, [("USD", 1), ("ECU", 2)]⟩) false false 1 "t"
          ⟨MemCache.empty, Store.empty⟩ 5 true).st.db.rates 5 "USD" = some 1 :=
  ⟨(C2_force_remote (fun _ => .ok ⟨true, [("USD", 1), ("ECU", 2)]⟩) false 1 "t"
      ⟨MemCache.empty, Store.empty⟩ 5).1,
   (((C2_force_remote (fun _ => .ok ⟨true, [("USD", 1), ("ECU", 2)]⟩) false 1 "t"
      ⟨MemCache.empty, Store.empty⟩ 5).2 ⟨true, [("USD", 1), ("ECU", 2)]⟩ rfl
      (by decide)).2 "USD" 1 (by decide))⟩

/-- C6: when the remote call inside `resolve` fails (HTTP error, network
failure, or undecodable payload) and the call was actually reached, the typed
error propagates to the caller and neither the memory snapshot nor the store
is mutated: the state is exactly as before the call. -/
theorem C6_remote_failure_no_mutation (api : ApiSource) (dbFailR dbFailW : Bool)
    (now : Nat) (nowIso : String) (st : FetchState) (target : Date) (force : Bool)
    (e : ApiErr) (herr : api target = .error e)
    (hcall : (fetch_exchange_rates api dbFailR dbFailW now nowIso st target
        force).apiCalls ≠ 0) :
    fetch_exchange_rates api dbFailR dbFailW now nowIso st target force =
      ⟨.error e, st, 1⟩ := by
  cases force with
  | true => exact fetchFromApi_error dbFailW now nowIso st herr
  | false =>
      cases hm : memLookup st.mem now target with
      | some d => simp [fetch_exchange_rates, hm] at hcall
      | none =>
          cases hdb : get_rates_from_db dbFailR st.db target with
          | some m => simp [fetch_exchange_rates, hm, hdb] at hcall
          | none =>
              simp only [fetch_exchange_rates, hm, hdb, Bool.false_eq_true, if_false]
              exact fetchFromApi_error dbFailW now nowIso st herr

/-- C6, witness: a rate-limited response on an empty state propagates and
leaves the state untouched. -/
theorem C6_witness :
    fetch_exchange_rates (fun _ => .error .rateLimited) false false 7 "t"
        ⟨MemCache.empty, Store.empty⟩ 3 false =
      ⟨.error .rateLimited, ⟨MemCache.empty, Store.empty⟩, 1⟩ :=
  C6_remote_failure_no_mutation (fun _ => .error .rateLimited) false false 7 "t"
    ⟨MemCache.empty, Store.empty⟩ 3 false .rateLimited rfl (by decide)

/-- C7, counterexample: a failing store write is caught inside
`store_rates_in_db` and only logged — no typed StoreError reaches the caller
(the claim says the failure is surfaced, not silently swallowed). -/
theorem C7_counterexample :
    (store_rates_in_db true Store.empty 0 [("USD", 1)] "t").raised = false ∧
    (store_rates_in_db true Store.empty 0 [("USD", 1)] "t").db = Store.empty := by
  refine ⟨rfl, rfl⟩

/-- C7, amended: a failing store write is swallowed (caught and logged) —
no error ever reaches the caller — leaving the store unchanged, and the write
is attempted exactly once with no retry; a failing store read degrades to a
no-data result so the caller falls back to the remote source. -/
theorem C7_store_failure_semantics (db : Store) (date : Date) (rates : RateMap)
    (nowIso : String) :
    (∀ fail, (store_rates_in_db fail db date rates nowIso).raised = false) ∧
    (store_rates_in_db true db date rates nowIso).db = db ∧
    (∀ d, get_rates_from_db true db d = none) := by
  refine ⟨?_, ?_, fun d => rfl⟩
  · intro fail
    by_cases h1 : rates = []
    · simp [store_rates_in_db, h1]
    · cases fail <;> simp [store_rates_in_db, h1]
  · by_cases h1 : rates = []
    · simp [store_rates_in_db, h1]
    · simp [store_rates_in_db, h1]

/-- C8, code bug: `rebuild_database` defines the closure `rebuild_task` but
never starts a thread with it nor calls it, so initiating a rebuild performs
zero fetches and leaves the engine state untouched; through the `rebuild`
command the database is cleared and then never repopulated, although the
acknowledgement "started in the background" is still returned.  Had the
defined task been started, it would have made one forced fetch per day of the
range and populated the store (last two conjuncts, on the 3-day range 0..2). -/
theorem C8_rebuild_never_runs (api : ApiSource) (dbFailR dbFailW : Bool) (now : Nat)
    (nowIso : String) (startD endD : Date) (st : FetchState) :
    rebuild_database api dbFailR dbFailW now nowIso startD endD st = (st, 0) ∧
    handle_db_rebuild api dbFailR dbFailW false now nowIso startD endD st =
      (⟨st.mem, Store.empty⟩, 0, true) ∧
    (rebuild_task (fun _ => .ok ⟨true, [("USD", 1)]⟩) false false 0 "t" 0 2
        ⟨MemCache.empty, Store.empty⟩).2 = 3 ∧
    lookupRate (rebuild_task (fun _ => .ok ⟨true, [("USD", 1)]⟩) false false 0 "t" 0 2
        ⟨MemCache.empty, Store.empty⟩).1.db.rates 1 "USD" = some 1 := by
  refine ⟨rfl, rfl, by decide, by decide⟩

/-- C10, counterexample: repeating an identical upsert at a later wall-clock
instant changes the stored bytes — the metadata row last_update is rewritten
with the new timestamp — so the store after the second call differs from the
store after the first. -/
theorem C10_counterexample :
    (store_rates_in_db false (store_rates_in_db false Store.empty 0 [("USD", 1)] "t1").db
        0 [("USD", 1)] "t2").db ≠
      (store_rates_in_db false Store.empty 0 [("USD", 1)] "t1").db := by
  decide

/-- C10, amended: repeating an upsert with the identical date and map (keys
pairwise distinct, as in a JSON object) leaves the rates table byte-for-byte
unchanged; only the metadata last_update timestamp is refreshed, and when the
second call carries the same timestamp the whole store is unchanged. -/
theorem C10_upsert_idempotent (db : Store) (date : Date) (m : RateMap)
    (t1 t2 : String) (hnd : (m.map Prod.fst).Nodup) :
    (store_rates_in_db false (store_rates_in_db false db date m t1).db
        date m t2).db.rates =
      (store_rates_in_db false db date m t1).db.rates ∧
    (store_rates_in_db false (store_rates_in_db false db date m t1).db
        date m t1).db =
      (store_rates_in_db false db date m t1).db := by
  by_cases hm : m = []
  · subst hm
    simp [store_rates_in_db]
  · have hst : ∀ (d : Store) (t : String), (store_rates_in_db false d date m t).db =
        ⟨writeRows date m d.rates, upsertAssoc d.metadata "last_update" t⟩ := by
      intro d t
      simp [store_rates_in_db, hm]
    have hw : writeRows date m (writeRows date m db.rates) = writeRows date m db.rates :=
      writeRows_noop (fun cr hcr => writeRows_lookup_mem date db.rates hnd hcr)
    constructor
    · rw [hst, hst]
      dsimp only
      exact hw
    · rw [hst, hst]
      dsimp only
      rw [hw, upsertAssoc_upsertAssoc]

/-- C10, witness: the rates table is unchanged by a repeated identical upsert
on a concrete store. -/
theorem C10_witness :
    (store_rates_in_db false (store_rates_in_db false Store.empty 0 [("USD", 1)] "a").db
        0 [("USD", 1)] "b").db.rates =
      (store_rates_in_db false Store.empty 0 [("USD", 1)] "a").db.rates :=
  (C10_upsert_idempotent Store.empty 0 [("USD", 1)] "a" "b" (by decide)).1

/-- C3: during trend backfill with a working store, a date of the enumerated
range is in `missing_dates` iff at least one tracked currency has no stored
rate for it; on a trend-cache miss exactly one remote fetch is performed per
missing date (the call count equals the number of missing dates); and each
successful fetch fills, for every tracked currency present in the response,
the slot of that date with the fetched rate. -/
theorem C3_backfill_missing_dates (api : ApiSource) (dbFailW : Bool) (now : Nat)
    (nowIso : String) (today : Date) (supported : List Currency) (tc : TrendCache)
    (st : FetchState) (currency : Currency) (periodDays : Nat) :
    (∀ d, d ∈ missingDates false st.db supported today periodDays ↔
        d ∈ trendDates today periodDays ∧
          ∃ c ∈ supported, trendDbVal false st.db today periodDays d c = none) ∧
    (trendCacheHit tc (currency, periodDays) now = none →
      (get_trend_data api false dbFailW now nowIso today supported tc st currency
          periodDays).apiCalls =
        (missingDates false st.db supported today periodDays).length) ∧
    (∀ d data c r,
        d ∈ missingDates false st.db supported today periodDays →
        api d = .ok data → data.tasas ≠ [] → c ∈ supported →
        findAssoc data.tasas c = some r →
        ((backfillLoop api false dbFailW now nowIso supported (trendDates today periodDays)
            (missingDates false st.db supported today periodDays)
            (initialRates false st.db today periodDays) st 0).1 c).get?
          ((trendDates today periodDays).indexOf d) = some (some r)) := by
  refine ⟨fun d => mem_missingDates, ?_, ?_⟩
  · intro hmiss
    unfold get_trend_data
    rw [hmiss]
    dsimp only
    split
    · split
      · dsimp only
        rw [backfillLoop_calls]
        exact Nat.zero_add _
      · dsimp only
        rw [backfillLoop_calls]
        exact Nat.zero_add _
    · dsimp only
      rw [backfillLoop_calls]
      exact Nat.zero_add _
  · intro d data c r hd hok htas hc hr
    exact backfillLoop_get_filled api false dbFailW now nowIso supported
      (trendDates today periodDays) (initialRates false st.db today periodDays) st 0
      (fun x hx => (missingDates_sublist false st.db supported today periodDays).subset hx)
      (missingDates_nodup false st.db supported today periodDays)
      hd hok htas hc hr
      (by rw [initialRates, List.length_map])

/-- C3, witness: two tracked currencies over a 3-day range with the two most
recent days fully stored; only the oldest day is missing, one remote call is
made for it, and its response fills the "ECU" slot of that day. -/
theorem C3_witness :
    (8 ∈ missingDates false
        (⟨[(9, "USD", 1), (9, "ECU", 2), (10, "USD", 1), (10, "ECU", 2)], []⟩ : Store)
        ["USD", "ECU"] 10 2 ↔
      8 ∈ trendDates 10 2 ∧
        ∃ c ∈ ["USD", "ECU"],
          trendDbVal false
            ⟨[(9, "USD", 1), (9, "ECU", 2), (10, "USD", 1), (10, "ECU", 2)], []⟩
            10 2 8 c = none) ∧
    (get_trend_data (fun _ => .ok ⟨true, [("USD", 3), ("ECU", 4)]⟩) false false 0 "t" 10
        ["USD", "ECU"] []
        ⟨MemCache.empty,
         ⟨[(9, "USD", 1), (9, "ECU", 2), (10, "USD", 1), (10, "ECU", 2)], []⟩⟩
        "USD" 2).apiCalls = 1 ∧
    ((backfillLoop (fun _ => .ok ⟨true, [("USD", 3), ("ECU", 4)]⟩) false false 0 "t"
        ["USD", "ECU"] (trendDates 10 2)
        (missingDates false
          ⟨[(9, "USD", 1), (9, "ECU", 2), (10, "USD", 1), (10, "ECU", 2)], []⟩
          ["USD", "ECU"] 10 2)
        (initialRates false
          ⟨[(9, "USD", 1), (9, "ECU", 2), (10, "USD", 1), (10, "ECU", 2)], []⟩ 10 2)
        ⟨MemCache.empty,
         ⟨[(9, "USD", 1), (9, "ECU", 2), (10, "USD", 1), (10, "ECU", 2)], []⟩⟩ 0).1
      "ECU").get? ((trendDates 10 2).indexOf 8) = some (some 4) := by
  refine ⟨(C3_backfill_missing_dates (fun _ => .ok ⟨true, [("USD", 3), ("ECU", 4)]⟩)
      false 0 "t" 10 ["USD", "ECU"] []
      ⟨MemCache.empty,
       ⟨[(9, "USD", 1), (9, "ECU", 2), (10, "USD", 1), (10, "ECU", 2)], []⟩⟩
      "USD" 2).1 8, ?_, ?_⟩
  · exact ((C3_backfill_missing_dates (fun _ => .ok ⟨true, [("USD", 3), ("ECU", 4)]⟩)
      false 0 "t" 10 ["USD", "ECU"] []
      ⟨MemCache.empty,
       ⟨[(9, "USD", 1), (9, "ECU", 2), (10, "USD", 1), (10, "ECU", 2)], []⟩⟩
      "USD" 2).2.1 rfl).trans (by decide)
  · exact (C3_backfill_missing_dates (fun _ => .ok ⟨true, [("USD", 3), ("ECU", 4)]⟩)
      false 0 "t" 10 ["USD", "ECU"] []
      ⟨MemCache.empty,
       ⟨[(9, "USD", 1), (9, "ECU", 2), (10, "USD", 1), (10, "ECU", 2)], []⟩⟩
      "USD" 2).2.2 8 ⟨true, [("USD", 3), ("ECU", 4)]⟩ "ECU" 4
      (by decide) rfl (by decide) (by decide) (by decide)

/-- C4, counterexample: `get_trend_data` does raise for some inputs: requesting
a currency outside the tracked set ("XYZ" here, reachable because the caller
falls back to the raw user input when it is not a known alias) reaches
`all_rates[currency]` on line 1240 and a KeyError escapes to the caller — and
only after the backfill already spent its remote calls (8 here). -/
theorem C4_counterexample :
    (get_trend_data (fun _ => .error .transientFail) false false 0 "t" 10
        ["USD", "ECU", "MLC", "TRX", "USDT_TRC20"] [] ⟨MemCache.empty, Store.empty⟩
        "XYZ" 7).result = none ∧
    (get_trend_data (fun _ => .error .transientFail) false false 0 "t" 10
        ["USD", "ECU", "MLC", "TRX", "USDT_TRC20"] [] ⟨MemCache.empty, Store.empty⟩
        "XYZ" 7).apiCalls = 8 := by
  refine ⟨by decide, by decide⟩

/-- C4, amended: for a currency in the tracked set, `get_trend_data` never
raises: it always returns a {dates, rates} result; when the store has no value
for any slot of the range (or the range query failed) and every per-date fetch
fails, the result is the empty series; and a date whose fetch failed is simply
left incomplete without aborting the rest — any missing date whose own fetch
succeeds ends up in the returned series with its fetched rate, whatever
happened to the other dates. -/
theorem C4_trend_never_raises (api : ApiSource) (dbFailR dbFailW : Bool) (now : Nat)
    (nowIso : String) (today : Date) (supported : List Currency) (tc : TrendCache)
    (st : FetchState) (currency : Currency) (periodDays : Nat)
    (hcur : currency ∈ supported) :
    (get_trend_data api dbFailR dbFailW now nowIso today supported tc st currency
        periodDays).result.isSome = true ∧
    (trendCacheHit tc (currency, periodDays) now = none →
      (∀ d ∈ trendDates today periodDays, ∃ e, api d = .error e) →
      (∀ d c, trendDbVal dbFailR st.db today periodDays d c = none) →
      (get_trend_data api dbFailR dbFailW now nowIso today supported tc st currency
          periodDays).result = some ⟨[], [], now⟩) ∧
    (trendCacheHit tc (currency, periodDays) now = none →
      ∀ d data r,
        d ∈ missingDates dbFailR st.db supported today periodDays →
        api d = .ok data → data.tasas ≠ [] →
        findAssoc data.tasas currency = some r →
        ∀ entry,
          (get_trend_data api dbFailR dbFailW now nowIso today supported tc st currency
              periodDays).result = some entry →
          (d, r) ∈ entry.dates.zip entry.rates) := by
  refine ⟨?_, ?_, ?_⟩
  · cases hhit : trendCacheHit tc (currency, periodDays) now with
    | some e =>
        unfold get_trend_data
        rw [hhit]
        rfl
    | none =>
        unfold get_trend_data
        rw [hhit]
        dsimp only
        rw [if_pos hcur]
        split
        · rfl
        · rfl
  · intro hmiss hapifail hdbnone
    unfold get_trend_data
    rw [hmiss]
    dsimp only
    rw [if_pos hcur]
    have hr1 : (backfillLoop api dbFailR dbFailW now nowIso supported
        (trendDates today periodDays)
        (missingDates dbFailR st.db supported today periodDays)
        (initialRates dbFailR st.db today periodDays) st 0).1 =
        initialRates dbFailR st.db today periodDays :=
      backfillLoop_rates_of_fail api dbFailR dbFailW now nowIso supported
        (trendDates today periodDays) (initialRates dbFailR st.db today periodDays) st 0
        (fun d hd => hapifail d
          ((missingDates_sublist dbFailR st.db supported today periodDays).subset hd))
    have hvd : validSeries (trendDates today periodDays)
        ((backfillLoop api dbFailR dbFailW now nowIso supported
          (trendDates today periodDays)
          (missingDates dbFailR st.db supported today periodDays)
          (initialRates dbFailR st.db today periodDays) st 0).1 currency) = [] := by
      rw [hr1]
      refine validSeries_all_none ?_
      intro v hv
      rw [initialRates] at hv
      obtain ⟨d, hd, hfd⟩ := List.mem_map.1 hv
      rw [← hfd]
      exact hdbnone d currency
    rw [if_pos hvd]
  · intro hmiss d data r hd hok htas hfind entry hres
    have hsub := (missingDates_sublist dbFailR st.db supported today periodDays).subset
    have hfill := backfillLoop_get_filled api dbFailR dbFailW now nowIso supported
      (trendDates today periodDays) (initialRates dbFailR st.db today periodDays) st 0
      (fun x hx => hsub hx)
      (missingDates_nodup dbFailR st.db supported today periodDays)
      hd hok htas hcur hfind
      (by rw [initialRates, List.length_map])
    have hmemvd : (d, r) ∈ validSeries (trendDates today periodDays)
        ((backfillLoop api dbFailR dbFailW now nowIso supported
          (trendDates today periodDays)
          (missingDates dbFailR st.db supported today periodDays)
          (initialRates dbFailR st.db today periodDays) st 0).1 currency) :=
      mem_validSeries.2
        ⟨(trendDates today periodDays).indexOf d,
         List.indexOf_get? (hsub hd), hfill⟩
    unfold get_trend_data at hres
    rw [hmiss] at hres
    dsimp only at hres
    rw [if_pos hcur] at hres
    by_cases hvd : validSeries (trendDates today periodDays)
        ((backfillLoop api dbFailR dbFailW now nowIso supported
          (trendDates today periodDays)
          (missingDates dbFailR st.db supported today periodDays)
          (initialRates dbFailR st.db today periodDays) st 0).1 currency) = []
    · rw [hvd] at hmemvd
      simp at hmemvd
    · rw [if_neg hvd] at hres
      dsimp only at hres
      have hent : entry = ⟨(validSeries (trendDates today periodDays)
          ((backfillLoop api dbFailR dbFailW now nowIso supported
            (trendDates today periodDays)
            (missingDates dbFailR st.db supported today periodDays)
            (initialRates dbFailR st.db today periodDays) st 0).1 currency)).map Prod.fst,
          (validSeries (trendDates today periodDays)
          ((backfillLoop api dbFailR dbFailW now nowIso supported
            (trendDates today periodDays)
            (missingDates dbFailR st.db supported today periodDays)
            (initialRates dbFailR st.db today periodDays) st 0).1 currency)).map Prod.snd,
          now⟩ := (Option.some.inj hres).symm
      subst hent
      dsimp only
      rw [zip_map_fst_snd]
      exact hmemvd

/-- C4, witness: with both days of a 1-day range missing, the older fetch
failing and the newer succeeding, the trend for "USD" still returns, makes
both calls, and contains the successfully fetched day. -/
theorem C4_witness :
    (get_trend_data
        (fun d => if d = 10 then .ok ⟨true, [("USD", 7)]⟩ else .error .transientFail)
        false false 0 "t" 10 ["USD"] [] ⟨MemCache.empty, Store.empty⟩
        "USD" 1).result.isSome = true ∧
    ((10 : Date), (7 : ℚ)) ∈
      (⟨[10], [7], 0⟩ : TrendEntry).dates.zip (⟨[10], [7], 0⟩ : TrendEntry).rates := by
  refine ⟨(C4_trend_never_raises
      (fun d => if d = 10 then .ok ⟨true, [("USD", 7)]⟩ else .error .transientFail)
      false false 0 "t" 10 ["USD"] [] ⟨MemCache.empty, Store.empty⟩ "USD" 1
      (by decide)).1, ?_⟩
  exact (C4_trend_never_raises
      (fun d => if d = 10 then .ok ⟨true, [("USD", 7)]⟩ else .error .transientFail)
      false false 0 "t" 10 ["USD"] [] ⟨MemCache.empty, Store.empty⟩ "USD" 1
      (by decide)).2.2 rfl 10 ⟨true, [("USD", 7)]⟩ 7 (by decide) (by decide)
      (by decide) (by decide) ⟨[10], [7], 0⟩ (by decide)

/-- C5: under the invariant that every stored trend-cache entry is
well-formed (the cache is only ever written by `get_trend_data` itself), any
entry returned by `get_trend_data` has dates and rates of equal length with
strictly ascending, duplicate-free dates; and on the computed (cache-miss)
path the returned pairs are exactly the non-null slots of the backfilled
table, in range order — null-valued dates are dropped and never surfaced. -/
theorem C5_series_invariant (api : ApiSource) (dbFailR dbFailW : Bool) (now : Nat)
    (nowIso : String) (today : Date) (supported : List Currency) (tc : TrendCache)
    (st : FetchState) (currency : Currency) (periodDays : Nat)
    (hcache : ∀ k e, findAssoc tc k = some e → TrendInv e) :
    ∀ entry,
      (get_trend_data api dbFailR dbFailW now nowIso today supported tc st currency
          periodDays).result = some entry →
      TrendInv entry ∧
      (trendCacheHit tc (currency, periodDays) now = none →
        entry.dates.zip entry.rates =
          validSeries (trendDates today periodDays)
            (backfillTable api dbFailR dbFailW now nowIso today supported st periodDays
              currency)) := by
  intro entry hres
  cases hhit : trendCacheHit tc (currency, periodDays) now with
  | some e =>
      unfold get_trend_data at hres
      rw [hhit] at hres
      dsimp only at hres
      have he : e = entry := Option.some.inj hres
      subst he
      refine ⟨hcache _ _ (trendCacheHit_some hhit), ?_⟩
      intro hmiss
      exact Option.noConfusion hmiss
  | none =>
      unfold get_trend_data at hres
      rw [hhit] at hres
      dsimp only at hres
      by_cases hcur : currency ∈ supported
      · rw [if_pos hcur] at hres
        by_cases hvd : validSeries (trendDates today periodDays)
            ((backfillLoop api dbFailR dbFailW now nowIso supported
              (trendDates today periodDays)
              (missingDates dbFailR st.db supported today periodDays)
              (initialRates dbFailR st.db today periodDays) st 0).1 currency) = []
        · rw [if_pos hvd] at hres
          dsimp only at hres
          have he : (⟨[], [], now⟩ : TrendEntry) = entry := Option.some.inj hres
          subst he
          refine ⟨⟨rfl, List.Pairwise.nil⟩, ?_⟩
          intro hm
          rw [backfillTable, hvd]
          rfl
        · rw [if_neg hvd] at hres
          dsimp only at hres
          have he : (⟨(validSeries (trendDates today periodDays)
              ((backfillLoop api dbFailR dbFailW now nowIso supported
                (trendDates today periodDays)
                (missingDates dbFailR st.db supported today periodDays)
                (initialRates dbFailR st.db today periodDays) st 0).1 currency)).map
                  Prod.fst,
              (validSeries (trendDates today periodDays)
              ((backfillLoop api dbFailR dbFailW now nowIso supported
                (trendDates today periodDays)
                (missingDates dbFailR st.db supported today periodDays)
                (initialRates dbFailR st.db today periodDays) st 0).1 currency)).map
                  Prod.snd,
              now⟩ : TrendEntry) = entry := Option.some.inj hres
          subst he
          refine ⟨⟨?_, ?_⟩, ?_⟩
          · dsimp only
            rw [List.length_map, List.length_map]
          · dsimp only
            exact (trendDates_pairwise today periodDays).sublist
              (validSeries_map_fst_sublist _ _)
          · intro hm
            dsimp only
            rw [zip_map_fst_snd, backfillTable]
      · rw [if_neg hcur] at hres
        exact Option.noConfusion hres

/-- C5, witness: the trend invariant holds for the series computed on a
concrete store with three stored days for the requested currency. -/
theorem C5_witness : TrendInv ⟨[8, 9, 10], [1, 1, 1], 0⟩ :=
  ((C5_series_invariant (fun _ => .error .transientFail) false false 0 "t" 10
      ["USD", "ECU"] []
      ⟨MemCache.empty, ⟨[(8, "USD", 1), (9, "USD", 1), (10, "USD", 1)], []⟩⟩
      "USD" 2
      (fun k e h => Option.noConfusion h)) ⟨[8, 9, 10], [1, 1, 1], 0⟩ (by decide)).1

/-- C9, counterexample: with "USD" and "ECU" tracked but only "USD" stored for
the whole range and every backfill fetch failing, the trend for "USD" computes
and returns a non-empty series, yet no entry at all is cached for "ECU" —
the claim that entries for every other tracked currency are also computed and
cached fails (a currency whose series is empty is skipped). -/
theorem C9_counterexample :
    (get_trend_data (fun _ => .error .transientFail) false false 0 "t" 10
        ["USD", "ECU"] []
        ⟨MemCache.empty, ⟨[(8, "USD", 1), (9, "USD", 1), (10, "USD", 1)], []⟩⟩
        "USD" 2).result = some ⟨[8, 9, 10], [1, 1, 1], 0⟩ ∧
    findAssoc
      (get_trend_data (fun _ => .error .transientFail) false false 0 "t" 10
        ["USD", "ECU"] []
        ⟨MemCache.empty, ⟨[(8, "USD", 1), (9, "USD", 1), (10, "USD", 1)], []⟩⟩
        "USD" 2).cache ("ECU", 2) = none := by
  refine ⟨by decide, by decide⟩

/-- C9, amended: on a cache miss for a tracked currency whose computed series
is non-empty, the result is cached under (currency, periodDays), and for every
other tracked currency an entry derived from the same backfilled table is
cached exactly when its own series is non-empty (a currency with an empty
series keeps its previous cache state); if the requested currency's series is
empty nothing is cached at all; and the call performs exactly one remote fetch
per missing date with no further I/O in the caching phase. -/
theorem C9_trend_caching (api : ApiSource) (dbFailR dbFailW : Bool) (now : Nat)
    (nowIso : String) (today : Date) (supported : List Currency) (tc : TrendCache)
    (st : FetchState) (currency : Currency) (periodDays : Nat)
    (hnd : supported.Nodup) (hcur : currency ∈ supported)
    (hmiss : trendCacheHit tc (currency, periodDays) now = none) :
    (validSeries (trendDates today periodDays)
        (backfillTable api dbFailR dbFailW now nowIso today supported st periodDays
          currency) ≠ [] →
      findAssoc
        (get_trend_data api dbFailR dbFailW now nowIso today supported tc st currency
          periodDays).cache (currency, periodDays) =
        some ⟨(validSeries (trendDates today periodDays)
            (backfillTable api dbFailR dbFailW now nowIso today supported st periodDays
              currency)).map Prod.fst,
          (validSeries (trendDates today periodDays)
            (backfillTable api dbFailR dbFailW now nowIso today supported st periodDays
              currency)).map Prod.snd, now⟩ ∧
      (∀ c ∈ supported, c ≠ currency →
        (validSeries (trendDates today periodDays)
            (backfillTable api dbFailR dbFailW now nowIso today supported st periodDays
              c) ≠ [] →
          findAssoc
            (get_trend_data api dbFailR dbFailW now nowIso today supported tc st
              currency periodDays).cache (c, periodDays) =
            some ⟨(validSeries (trendDates today periodDays)
                (backfillTable api dbFailR dbFailW now nowIso today supported st
                  periodDays c)).map Prod.fst,
              (validSeries (trendDates today periodDays)
                (backfillTable api dbFailR dbFailW now nowIso today supported st
                  periodDays c)).map Prod.snd, now⟩) ∧
        (validSeries (trendDates today periodDays)
            (backfillTable api dbFailR dbFailW now nowIso today supported st periodDays
              c) = [] →
          findAssoc
            (get_trend_data api dbFailR dbFailW now nowIso today supported tc st
              currency periodDays).cache (c, periodDays) =
            findAssoc tc (c, periodDays)))) ∧
    (validSeries (trendDates today periodDays)
        (backfillTable api dbFailR dbFailW now nowIso today supported st periodDays
          currency) = [] →
      (get_trend_data api dbFailR dbFailW now nowIso today supported tc st currency
        periodDays).cache = tc) ∧
    (get_trend_data api dbFailR dbFailW now nowIso today supported tc st currency
        periodDays).apiCalls =
      (missingDates dbFailR st.db supported today periodDays).length := by
  unfold backfillTable
  unfold get_trend_data
  rw [hmiss]
  dsimp only
  rw [if_pos hcur]
  by_cases hvd : validSeries (trendDates today periodDays)
      ((backfillLoop api dbFailR dbFailW now nowIso supported
        (trendDates today periodDays)
        (missingDates dbFailR st.db supported today periodDays)
        (initialRates dbFailR st.db today periodDays) st 0).1 currency) = []
  · rw [if_pos hvd]
    refine ⟨fun hne => absurd hvd hne, fun _ => rfl, ?_⟩
    dsimp only
    rw [backfillLoop_calls]
    exact Nat.zero_add _
  · rw [if_neg hvd]
    refine ⟨?_, fun h0 => absurd h0 hvd, ?_⟩
    · intro hne
      dsimp only
      constructor
      · rw [cacheOthers_lookup_requested]
        exact findAssoc_upsertAssoc_self _ _ _
      · intro c hc hcne
        constructor
        · intro hvdc
          exact cacheOthers_lookup_mem supported currency periodDays now
            (trendDates today periodDays) _ _ hnd hc hcne hvdc
        · intro hvdc
          rw [cacheOthers_lookup_empty supported currency periodDays now
            (trendDates today periodDays) _ _ hnd hvdc]
          exact findAssoc_upsertAssoc_ne _ _
            (fun heq => hcne (Prod.mk.inj heq).1)
    · dsimp only
      rw [backfillLoop_calls]
      exact Nat.zero_add _

/-- C9, witness: with both tracked currencies fully stored for the range, the
trend call for "USD" also caches the "ECU" series from the same data, with no
remote call at all. -/
theorem C9_witness :
    findAssoc
      (get_trend_data (fun _ => .error .transientFail) false false 0 "t" 10
        ["USD", "ECU"] []
        ⟨MemCache.empty,
         ⟨[(8, "USD", 1), (8, "ECU", 2), (9, "USD", 1), (9, "ECU", 2),
           (10, "USD", 1), (10, "ECU", 2)], []⟩⟩
        "USD" 2).cache ("ECU", 2) = some ⟨[8, 9, 10], [2, 2, 2], 0⟩ ∧
    (get_trend_data (fun _ => .error .transientFail) false false 0 "t" 10
        ["USD", "ECU"] []
        ⟨MemCache.empty,
         ⟨[(8, "USD", 1), (8, "ECU", 2), (9, "USD", 1), (9, "ECU", 2),
           (10, "USD", 1), (10, "ECU", 2)], []⟩⟩
        "USD" 2).apiCalls = 0 := by
  refine ⟨?_, ?_⟩
  · exact ((((C9_trend_caching (fun _ => .error .transientFail) false false 0 "t" 10
      ["USD", "ECU"] []
      ⟨MemCache.empty,
       ⟨[(8, "USD", 1), (8, "ECU", 2), (9, "USD", 1), (9, "ECU", 2),
         (10, "USD", 1), (10, "ECU", 2)], []⟩⟩
      "USD" 2 (by decide) (by decide) rfl).1 (by decide)).2 "ECU" (by decide)
      (by decide)).1 (by decide)).trans (by decide)
  · exact ((C9_trend_caching (fun _ => .error .transientFail) false false 0 "t" 10
      ["USD", "ECU"] []
      ⟨MemCache.empty,
       ⟨[(8, "USD", 1), (8, "ECU", 2), (9, "USD", 1), (9, "ECU", 2),
         (10, "USD", 1), (10, "ECU", 2)], []⟩⟩
      "USD" 2 (by decide) (by decide) rfl).2.2).trans (by decide)

end ElToque
